import Mathlib

/-!
Verification development for the zip-to-GIF converter in src/app.py.

The pipeline under study: archive entry filtering, natural filename sort,
per-frame loading and normalization, boomerang sequencing, and GIF
encoding with optional transparency preservation.  Strings are modelled
through their character lists; Python integers are Nat; Python exceptions
are modelled with Option and Except.
-/

namespace GifMaker

/-! ## Natural sort key (app.py, natural_key) -/

/-- One token of a natural sort key: a maximal digit run taken by its
decimal value, or a maximal non-digit run lowercased. -/
inductive Tok where
  | num (n : Nat)
  | str (s : String)
deriving DecidableEq

/-- Decimal value of a digit run (Python int applied to a digit string). -/
def digitsToNat (run : List Char) : Nat :=
  run.foldl (fun acc c => acc * 10 + (c.toNat - 48)) 0

/-- Lowercase a character list (Python str.lower, ASCII model). -/
def lowerChars (l : List Char) : List Char := l.map Char.toLower

/-- Token built from one maximal run of the regex split: int(text) when
text.isdigit() holds, else text.lower(). -/
def mkTok (run : List Char) : Tok :=
  if run.all Char.isDigit then Tok.num (digitsToNat run)
  else Tok.str (String.mk (lowerChars run))

/-- natural_key from app.py: split a filename into maximal digit runs and
maximal non-digit runs (regex findall with pattern d-plus or D-plus) and
map each run to a token. -/
def natural_key (s : String) : List Tok :=
  (s.data.splitBy (fun a b => a.isDigit == b.isDigit)).map mkTok

/-- Comparison of two tokens, as Python compares list elements: int with
int by value, str with str lexicographically; a mixed pair is unequal
under Python eq, and ordering it raises TypeError, modelled as none. -/
def tokCmp : Tok → Tok → Option Ordering
  | Tok.num a, Tok.num b => some (compare a b)
  | Tok.str a, Tok.str b => some (compare a b)
  | _, _ => none

/-- Python list comparison on sort keys: the first unequal position
decides, a list that is a proper prefix of the other is smaller, and a
mixed-type pair at the deciding position raises TypeError (none). -/
def keyCmp : List Tok → List Tok → Option Ordering
  | [], [] => some Ordering.eq
  | [], _ :: _ => some Ordering.lt
  | _ :: _, [] => some Ordering.gt
  | a :: as, b :: bs =>
    match tokCmp a b with
    | none => none
    | some Ordering.eq => keyCmp as bs
    | some o => some o

/-- The keep-in-place relation of the ascending Python sort through the
key: a may stay before b unless the key of a is strictly greater. -/
def pyLe (a b : String) : Bool :=
  keyCmp (natural_key a) (natural_key b) != some Ordering.gt

/-- Stable insertion keeping the inserted element before later elements
with equal keys. -/
def insertSorted (a : String) : List String → List String
  | [] => [a]
  | b :: l => if pyLe a b then a :: b :: l else b :: insertSorted a l

/-- Model of names.sort(key=natural_key) in app.py, an ascending stable
sort; any stable sort by the same preorder produces the same list. -/
def pySortByKey : List String → List String
  | [] => []
  | a :: l => insertSorted a (pySortByKey l)

/-! ## Archive filter (app.py, _is_valid_zip_image and list_images_in_zip) -/

/-- SUPPORTED_EXTS from app.py. -/
def SUPPORTED_EXTS : List String :=
  [".png", ".jpg", ".jpeg", ".bmp", ".gif", ".tif", ".tiff", ".webp"]

/-- Characters after the last occurrence of c (the whole list when c is
absent). -/
def afterLast (c : Char) (l : List Char) : List Char :=
  (l.reverse.takeWhile (fun x => x != c)).reverse

/-- os.path.basename on posix paths: the part after the last slash. -/
def basename (name : String) : String := String.mk (afterLast '/' name.data)

/-- Containment of pat as a contiguous run inside a list (the Python
substring membership test). -/
def hasInfixOf (pat : List Char) : List Char → Bool
  | [] => pat.isEmpty
  | a :: l => List.isPrefixOf pat (a :: l) || hasInfixOf pat l

/-- str.startswith through character lists. -/
def startsWithS (s pre : String) : Bool := List.isPrefixOf pre.data s.data

/-- str.endswith through character lists. -/
def endsWithS (s suf : String) : Bool := List.isSuffixOf suf.data s.data

/-- _is_valid_zip_image from app.py. -/
def _is_valid_zip_image (name : String) : Bool :=
  if startsWithS name "__MACOSX/" || hasInfixOf "/__MACOSX/".data name.data then false
  else
    let base := basename name
    if startsWithS base "._" || startsWithS base "." then false
    else if endsWithS name "/" then false
    else
      let ext :=
        if base.data.contains '.' then
          "." ++ String.mk (lowerChars (afterLast '.' base.data))
        else ""
      SUPPORTED_EXTS.contains ext

/-- list_images_in_zip from app.py: the entry names passing the filter,
in archive order. -/
def list_images_in_zip (names : List String) : List String :=
  names.filter _is_valid_zip_image

/-! ## Lemmas on the key comparison -/

theorem tokCmp_self (t : Tok) : tokCmp t t = some Ordering.eq := by
  cases t with
  | num a => simp [tokCmp, Nat.compare_eq_eq]
  | str s => simp [tokCmp, compare, compareOfLessAndEq]

theorem keyCmp_self (k : List Tok) : keyCmp k k = some Ordering.eq := by
  induction k with
  | nil => rfl
  | cons t k ih => simp [keyCmp, tokCmp_self, ih]

theorem pyLe_of_key_eq {a b : String} (h : natural_key a = natural_key b) :
    pyLe a b = true := by
  unfold pyLe
  rw [h, keyCmp_self]
  decide

theorem filter_insertSorted (q : String → Bool) (a : String) (l : List String)
    (h : q a = true → ∀ b, q b = true → pyLe a b = true) :
    List.filter q (insertSorted a l) =
      if q a = true then a :: List.filter q l else List.filter q l := by
  induction l with
  | nil =>
    simp [insertSorted, List.filter_cons]
  | cons b l ih =>
    rw [insertSorted]
    by_cases hab : pyLe a b = true
    · rw [if_pos hab]
      by_cases hqa : q a = true <;> simp [List.filter_cons, hqa]
    · rw [if_neg hab]
      by_cases hqa : q a = true
      · by_cases hqb : q b = true
        · exact absurd (h hqa b hqb) hab
        · simp [List.filter_cons, hqa, hqb, ih]
      · simp [List.filter_cons, hqa, ih]

theorem filter_pySortByKey (q : String → Bool)
    (hq : ∀ a b, q a = true → q b = true → pyLe a b = true) :
    ∀ l, List.filter q (pySortByKey l) = List.filter q l := by
  intro l
  induction l with
  | nil => rfl
  | cons a l ih =>
    rw [pySortByKey, filter_insertSorted q a _ (fun ha b hb => hq a b ha hb),
      List.filter_cons, ih]

theorem mkTok_nondigit {u : List Char} (hne : u ≠ [])
    (hd : ∀ c ∈ u, c.isDigit = false) :
    mkTok u = Tok.str (String.mk (lowerChars u)) := by
  cases u with
  | nil => exact absurd rfl hne
  | cons c u =>
    have : c.isDigit = false := hd c (List.mem_cons_self c u)
    simp [mkTok, List.all_cons, this]

/-! ## Claim C1 -/

/-- C1: for every pair of filenames the natural sort key compares
digit-run tokens by integer value and non-digit runs case-insensitively
(the token comparison is the lexicographic comparison of the lowercased
runs, hence runs with equal lowercasings yield equal tokens); the key of
img2.png sorts before the key of img10.png and before the key of
img2a.png; and sorting the filtered entry-name list by this key is stable
for equal keys: entries carrying one fixed key keep their original
relative order. -/
theorem claim_C1 :
    (∀ a b : Nat, tokCmp (Tok.num a) (Tok.num b) = some (compare a b))
    ∧ (∀ u v : List Char, u ≠ [] → v ≠ [] →
        (∀ c ∈ u, c.isDigit = false) → (∀ c ∈ v, c.isDigit = false) →
        tokCmp (mkTok u) (mkTok v)
            = some (compare (String.mk (lowerChars u)) (String.mk (lowerChars v)))
          ∧ (lowerChars u = lowerChars v →
              tokCmp (mkTok u) (mkTok v) = some Ordering.eq))
    ∧ keyCmp (natural_key "img2.png") (natural_key "img10.png") = some Ordering.lt
    ∧ keyCmp (natural_key "img2.png") (natural_key "img2a.png") = some Ordering.lt
    ∧ (∀ (names : List String) (k : List Tok),
        List.filter (fun n => natural_key n == k)
            (pySortByKey (list_images_in_zip names))
          = List.filter (fun n => natural_key n == k) (list_images_in_zip names)) := by
  refine ⟨fun a b => rfl, ?_, by decide, by decide, ?_⟩
  · intro u v hu hv hdu hdv
    rw [mkTok_nondigit hu hdu, mkTok_nondigit hv hdv]
    constructor
    · rfl
    · intro h
      rw [h]
      exact tokCmp_self _
  · intro names k
    refine filter_pySortByKey _ (fun a b ha hb => ?_) _
    have ha : natural_key a = k := by simpa using ha
    have hb : natural_key b = k := by simpa using hb
    exact pyLe_of_key_eq (ha.trans hb.symm)

/-- Witness for C1 at concrete inputs: the digit comparison at 2 and 10,
and two non-digit runs equal up to case yielding equal tokens. -/
theorem claim_C1_witness :
    tokCmp (Tok.num 2) (Tok.num 10) = some (compare 2 10)
    ∧ tokCmp (mkTok ['a', 'B']) (mkTok ['A', 'b']) = some Ordering.eq := by
  refine ⟨claim_C1.1 2 10, ?_⟩
  exact (claim_C1.2.1 ['a', 'B'] ['A', 'b'] (by decide) (by decide)
    (by decide) (by decide)).2 (by decide)

/-! ## Claim C9 -/

/-- C9 is false of the code: comparing the keys of 1.png and b.png
compares an int token against a str token; Python raises TypeError there
(modelled as none), so the key comparison is not total and the sort
aborts instead of falling back to a tie-break. -/
theorem claim_C9_failure :
    keyCmp (natural_key "1.png") (natural_key "b.png") = none
    ∧ ¬ (∀ s t : String, (keyCmp (natural_key s) (natural_key t)).isSome = true) := by
  refine ⟨by decide, fun h => ?_⟩
  have h1 := h "1.png" "b.png"
  rw [(by decide : keyCmp (natural_key "1.png") (natural_key "b.png") = none)] at h1
  simp at h1

/-! ## Claim C2: the archive filter -/

/-- The supported extensions of the spec, without the leading dot. -/
def SUPPORTED_EXT_NAMES : List String :=
  ["png", "jpg", "jpeg", "bmp", "gif", "tif", "tiff", "webp"]

/-- Eligibility as claim C2 words it: not under the __MACOSX metadata
directory, base name not beginning with a dot, not a directory entry,
and the base name splits at its last dot into a stem and an extension
whose lowercasing is in the supported set. -/
def specEligible (name : String) : Prop :=
  ¬ (startsWithS name "__MACOSX/" = true ∨ hasInfixOf "/__MACOSX/".data name.data = true)
  ∧ ¬ startsWithS (basename name) "." = true
  ∧ ¬ endsWithS name "/" = true
  ∧ ∃ s t, (basename name).data = s ++ '.' :: t ∧ '.' ∉ t
      ∧ String.mk (lowerChars t) ∈ SUPPORTED_EXT_NAMES

theorem takeWhile_append_cons {α : Type} {p : α → Bool} {a : List α} {hd : α}
    (b : List α) (ha : ∀ x ∈ a, p x = true) (hhd : p hd = false) :
    (a ++ hd :: b).takeWhile p = a := by
  induction a with
  | nil => simp [List.takeWhile_cons, hhd]
  | cons y a ih =>
    have hy : p y = true := ha y (List.mem_cons_self y a)
    simp [List.takeWhile_cons, hy,
      ih (fun x hx => ha x (List.mem_cons_of_mem y hx))]

theorem afterLast_append {s t : List Char} (c : Char) (ht : c ∉ t) :
    afterLast c (s ++ c :: t) = t := by
  unfold afterLast
  rw [List.reverse_append, List.reverse_cons, List.append_assoc]
  have hrw : ([c] ++ s.reverse) = c :: s.reverse := rfl
  rw [hrw, takeWhile_append_cons s.reverse ?_ ?_, List.reverse_reverse]
  · intro x hx
    rw [List.mem_reverse] at hx
    have hne : x ≠ c := fun h => ht (h ▸ hx)
    simpa using hne
  · simp

theorem dropWhile_head_false {α : Type} {p : α → Bool} :
    ∀ {l : List α} {hd : α} {rest : List α},
      l.dropWhile p = hd :: rest → p hd = false := by
  intro l
  induction l with
  | nil => intro hd rest h; cases h
  | cons a l ih =>
    intro hd rest h
    rw [List.dropWhile_cons] at h
    by_cases hp : p a = true
    · rw [if_pos hp] at h
      exact ih h
    · rw [if_neg hp] at h
      cases h
      simpa using hp

theorem contains_split {l : List Char} (h : l.contains '.' = true) :
    ∃ s, l = s ++ '.' :: afterLast '.' l ∧ '.' ∉ afterLast '.' l := by
  have hm : ('.' : Char) ∈ l := by simpa using h
  have hmr : ('.' : Char) ∈ l.reverse := List.mem_reverse.mpr hm
  have hne : l.reverse.dropWhile (fun x => x != '.') ≠ [] := by
    intro h0
    have happ := List.takeWhile_append_dropWhile (fun x => x != '.') l.reverse
    rw [h0, List.append_nil] at happ
    have htw : ('.' : Char) ∈ List.takeWhile (fun x => x != '.') l.reverse := by
      rw [happ]
      exact hmr
    have hp := List.mem_takeWhile_imp htw
    simp at hp
  obtain ⟨hd, rest, hdr⟩ :
      ∃ hd rest, l.reverse.dropWhile (fun x => x != '.') = hd :: rest := by
    cases hcase : l.reverse.dropWhile (fun x => x != '.') with
    | nil => exact absurd hcase hne
    | cons hd rest => exact ⟨hd, rest, rfl⟩
  have hhd := dropWhile_head_false hdr
  have hdc : hd = '.' := by simpa using hhd
  subst hdc
  have hsplit : l.reverse
      = List.takeWhile (fun x => x != '.') l.reverse ++ '.' :: rest := by
    conv_lhs => rw [← List.takeWhile_append_dropWhile (fun x => x != '.') l.reverse]
    rw [hdr]
  have hafter : afterLast '.' l
      = (List.takeWhile (fun x => x != '.') l.reverse).reverse := rfl
  have hsym : l
      = (List.takeWhile (fun x => x != '.') l.reverse ++ '.' :: rest).reverse := by
    have hrr := congrArg List.reverse hsplit
    rwa [List.reverse_reverse] at hrr
  refine ⟨rest.reverse, ?_, ?_⟩
  · rw [hafter]
    conv_lhs => rw [hsym]
    simp [List.reverse_append, List.reverse_cons, List.append_assoc]
  · intro hx
    rw [hafter, List.mem_reverse] at hx
    have hp := List.mem_takeWhile_imp hx
    simp at hp

theorem string_dot_inj {x y : String} (h : ("." ++ x) = "." ++ y) : x = y := by
  have hd := congrArg String.data h
  rw [String.data_append, String.data_append] at hd
  apply String.ext
  simpa using hd

theorem dotted_mem (x : String) :
    ("." ++ x) ∈ SUPPORTED_EXTS ↔ x ∈ SUPPORTED_EXT_NAMES := by
  constructor
  · intro h
    simp only [SUPPORTED_EXTS, List.mem_cons, List.not_mem_nil, or_false] at h
    rcases h with h | h | h | h | h | h | h | h <;>
      [ (have hx := string_dot_inj (h.trans (by decide : (".png" : String) = "." ++ "png")));
        (have hx := string_dot_inj (h.trans (by decide : (".jpg" : String) = "." ++ "jpg")));
        (have hx := string_dot_inj (h.trans (by decide : (".jpeg" : String) = "." ++ "jpeg")));
        (have hx := string_dot_inj (h.trans (by decide : (".bmp" : String) = "." ++ "bmp")));
        (have hx := string_dot_inj (h.trans (by decide : (".gif" : String) = "." ++ "gif")));
        (have hx := string_dot_inj (h.trans (by decide : (".tif" : String) = "." ++ "tif")));
        (have hx := string_dot_inj (h.trans (by decide : (".tiff" : String) = "." ++ "tiff")));
        (have hx := string_dot_inj (h.trans (by decide : (".webp" : String) = "." ++ "webp")))] <;>
      rw [hx] <;> decide
  · intro h
    simp only [SUPPORTED_EXT_NAMES, List.mem_cons, List.not_mem_nil, or_false] at h
    rcases h with h | h | h | h | h | h | h | h <;> rw [h] <;> decide

theorem extClause_iff (base : List Char) :
    (SUPPORTED_EXTS.contains
        (if base.contains '.' then "." ++ String.mk (lowerChars (afterLast '.' base))
         else "") = true)
    ↔ ∃ s t, base = s ++ '.' :: t ∧ '.' ∉ t
        ∧ String.mk (lowerChars t) ∈ SUPPORTED_EXT_NAMES := by
  by_cases hc : base.contains '.' = true
  · rw [if_pos hc]
    constructor
    · intro h
      obtain ⟨s, hsplit, hnm⟩ := contains_split hc
      refine ⟨s, afterLast '.' base, hsplit, hnm, ?_⟩
      exact (dotted_mem _).mp (by simpa using h)
    · rintro ⟨s, t, hsplit, hnm, hmem⟩
      have ha : afterLast '.' base = t := by
        rw [hsplit]
        exact afterLast_append '.' hnm
      rw [ha]
      simpa using (dotted_mem _).mpr hmem
  · rw [if_neg hc]
    constructor
    · intro h
      exact absurd h (by decide)
    · rintro ⟨s, t, hsplit, -, -⟩
      refine absurd ?_ hc
      rw [hsplit]
      simp

theorem startsWith_dot_of_dotUnderscore {base : String}
    (h : startsWithS base "._" = true) : startsWithS base "." = true := by
  unfold startsWithS at h ⊢
  cases hb : base.data with
  | nil => rw [hb] at h; simp [List.isPrefixOf] at h
  | cons c l =>
    rw [hb] at h
    simp only [List.isPrefixOf, Bool.and_eq_true, beq_iff_eq] at h
    simp [List.isPrefixOf]
    exact h.1

/-- C2: the filter excludes entries under the __MACOSX metadata
directory, entries whose base name begins with a dot, and directory
entries ending in a slash, and includes exactly the remaining entries
whose lowercased extension is one of png, jpg, jpeg, bmp, gif, tif,
tiff, webp; in particular __MACOSX/a.png, ._a.png and dir/ are excluded
while a.PNG is included. -/
theorem claim_C2 :
    (∀ name, _is_valid_zip_image name = true ↔ specEligible name)
    ∧ _is_valid_zip_image "__MACOSX/a.png" = false
    ∧ _is_valid_zip_image "._a.png" = false
    ∧ _is_valid_zip_image "dir/" = false
    ∧ _is_valid_zip_image "a.PNG" = true
    ∧ list_images_in_zip ["__MACOSX/a.png", "._a.png", "dir/", "a.PNG", "b.txt"]
        = ["a.PNG"] := by
  refine ⟨?_, by decide, by decide, by decide, by decide, by decide⟩
  intro name
  unfold _is_valid_zip_image specEligible
  by_cases h1 : (startsWithS name "__MACOSX/"
      || hasInfixOf "/__MACOSX/".data name.data) = true
  · rw [if_pos h1]
    simp only [Bool.or_eq_true] at h1
    constructor
    · intro h; exact absurd h (by decide)
    · rintro ⟨g1, -⟩; exact absurd h1 g1
  · rw [if_neg h1]
    simp only [Bool.or_eq_true, not_or] at h1
    by_cases h2 : (startsWithS (basename name) "._"
        || startsWithS (basename name) ".") = true
    · rw [if_pos h2]
      simp only [Bool.or_eq_true] at h2
      constructor
      · intro h; exact absurd h (by decide)
      · rintro ⟨-, g2, -⟩
        rcases h2 with h2 | h2
        · exact absurd (startsWith_dot_of_dotUnderscore h2) g2
        · exact absurd h2 g2
    · rw [if_neg h2]
      simp only [Bool.or_eq_true, not_or] at h2
      by_cases h3 : endsWithS name "/" = true
      · rw [if_pos h3]
        constructor
        · intro h; exact absurd h (by decide)
        · rintro ⟨-, -, g3, -⟩; exact absurd h3 g3
      · rw [if_neg h3]
        constructor
        · intro h
          exact ⟨fun hc => hc.elim (fun ha => h1.1 ha) (fun hb => h1.2 hb),
            h2.2, h3, (extClause_iff (basename name).data).mp h⟩
        · rintro ⟨-, -, -, hext⟩
          exact (extClause_iff (basename name).data).mpr hext

/-! ## Claim C3: boomerang -/

/-- The Python slice frames[-2:0:-1]: the elements from index length - 2
down to index 1. -/
def sliceSecondLastDownToOne {α : Type} (l : List α) : List α :=
  ((l.drop 1).take (l.length - 2)).reverse

/-- The boomerang step of app.py: when the flag is on and there is more
than one frame, append frames[-2:0:-1] to the frame list. -/
def applyBoomerang {α : Type} (reverse_frames : Bool) (frames : List α) : List α :=
  if reverse_frames = true ∧ 1 < frames.length then
    frames ++ sliceSecondLastDownToOne frames
  else frames

theorem reverse_drop_one {α : Type} (l : List α) :
    l.reverse.drop 1 = l.dropLast.reverse := by
  cases hl : l.length with
  | zero =>
    have hnil : l = [] := List.length_eq_zero.mp hl
    simp [hnil]
  | succ n =>
    rw [List.dropLast_eq_take, List.reverse_take]
    congr 1
    omega

theorem dropLast_reverse_eq {α : Type} (m : List α) :
    m.reverse.dropLast = (m.drop 1).reverse := by
  cases hm : m.length with
  | zero =>
    have hnil : m = [] := List.length_eq_zero.mp hm
    simp [hnil]
  | succ n =>
    rw [List.dropLast_eq_take, List.length_reverse, List.take_reverse]
    congr 2
    omega

theorem slice_eq_reverse_inner {α : Type} (l : List α) :
    sliceSecondLastDownToOne l = (l.reverse.drop 1).dropLast := by
  unfold sliceSecondLastDownToOne
  rw [reverse_drop_one, dropLast_reverse_eq]
  congr 1
  rw [List.dropLast_eq_take, List.drop_take]
  congr 1

/-- C3: with more than one frame, the boomerang output is the input
followed by its reversal with both endpoints removed; with a single
frame the output equals the input. -/
theorem claim_C3 {α : Type} :
    (∀ l : List α, 1 < l.length →
      applyBoomerang true l = l ++ ((l.reverse.drop 1).dropLast))
    ∧ (∀ a : α, ∀ b : Bool, applyBoomerang b [a] = [a]) := by
  constructor
  · intro l hl
    unfold applyBoomerang
    rw [if_pos ⟨rfl, hl⟩, slice_eq_reverse_inner]
  · intro a b
    unfold applyBoomerang
    rw [if_neg]
    rintro ⟨-, h⟩
    simp at h

/-- Witness for C3 at the four-frame list of the claim: boomerang of
[A, B, C, D] is [A, B, C, D, C, B], and a singleton is unchanged. -/
theorem claim_C3_witness :
    applyBoomerang true [0, 1, 2, 3]
        = [0, 1, 2, 3] ++ (([0, 1, 2, 3].reverse.drop 1).dropLast)
      ∧ applyBoomerang true [0, 1, 2, 3] = [0, 1, 2, 3, 2, 1]
      ∧ applyBoomerang true [(5 : Nat)] = [5] :=
  ⟨claim_C3.1 [0, 1, 2, 3] (by decide), by decide, claim_C3.2 5 true⟩

/-! ## Image model

PIL images are external to src/app.py.  Following the data model of the
spec, an image is a mode, a geometry, channel data (rows of RGBA
quadruples for continuous modes; L and LA store the luminance in the
first channel), palette indices with a palette for indexed mode, and an
optional transparency marker from the metadata dictionary. -/

structure Rgb where
  r : Nat
  g : Nat
  b : Nat
deriving DecidableEq

structure Rgba where
  r : Nat
  g : Nat
  b : Nat
  a : Nat
deriving DecidableEq

inductive Mode where
  | RGB
  | RGBA
  | LA
  | L
  | P
deriving DecidableEq

structure Img where
  mode : Mode
  width : Nat
  height : Nat
  px : List Rgba
  idx : List Nat
  palette : List Rgb
  transparencyInfo : Option Nat
deriving DecidableEq

/-- Image.new with a constant fill. -/
def newSolid (m : Mode) (w h : Nat) (p : Rgba) : Img :=
  { mode := m, width := w, height := h, px := List.replicate (w * h) p
    idx := [], palette := [], transparencyInfo := none }

/-- Modelled from the spec: PIL convert to RGBA.  LA and L spread the
luminance, P looks colors up in the palette giving alpha 0 at the marked
transparent index, RGB becomes opaque; a consumed marker is dropped. -/
def convertRGBA (im : Img) : Img :=
  match im.mode with
  | Mode.RGBA => im
  | Mode.LA =>
    { im with
      mode := Mode.RGBA
      px := im.px.map (fun p => ⟨p.r, p.r, p.r, p.a⟩)
      transparencyInfo := none }
  | Mode.L =>
    { im with
      mode := Mode.RGBA
      px := im.px.map (fun p => ⟨p.r, p.r, p.r, 255⟩)
      transparencyInfo := none }
  | Mode.RGB =>
    { im with
      mode := Mode.RGBA
      px := im.px.map (fun p => ⟨p.r, p.g, p.b, 255⟩)
      transparencyInfo := none }
  | Mode.P =>
    { im with
      mode := Mode.RGBA
      px := im.idx.map (fun i =>
        let c := im.palette.getD i ⟨0, 0, 0⟩
        ⟨c.r, c.g, c.b, if im.transparencyInfo = some i then 0 else 255⟩)
      idx := []
      transparencyInfo := none }

/-- Modelled from the spec: PIL convert to RGB, dropping alpha. -/
def convertRGB (im : Img) : Img :=
  match im.mode with
  | Mode.RGB => im
  | Mode.RGBA =>
    { im with
      mode := Mode.RGB
      px := im.px.map (fun p => ⟨p.r, p.g, p.b, 255⟩)
      transparencyInfo := none }
  | Mode.LA =>
    { im with
      mode := Mode.RGB
      px := im.px.map (fun p => ⟨p.r, p.r, p.r, 255⟩)
      transparencyInfo := none }
  | Mode.L =>
    { im with
      mode := Mode.RGB
      px := im.px.map (fun p => ⟨p.r, p.r, p.r, 255⟩)
      transparencyInfo := none }
  | Mode.P =>
    { im with
      mode := Mode.RGB
      px := im.idx.map (fun i =>
        let c := im.palette.getD i ⟨0, 0, 0⟩
        ⟨c.r, c.g, c.b, 255⟩)
      idx := []
      transparencyInfo := none }

/-- Modelled from the spec: Image.alpha_composite of an RGBA foreground
over a fully opaque background image of the same size; channels blend by
the foreground alpha with rounding, the result is opaque RGBA. -/
def alpha_composite (bg fg : Img) : Img :=
  { mode := Mode.RGBA, width := bg.width, height := bg.height
    px := List.zipWith (fun b f =>
        (⟨(f.r * f.a + b.r * (255 - f.a) + 127) / 255,
          (f.g * f.a + b.g * (255 - f.a) + 127) / 255,
          (f.b * f.a + b.b * (255 - f.a) + 127) / 255, 255⟩ : Rgba))
      bg.px fg.px
    idx := [], palette := [], transparencyInfo := none }

/-- One channel of Image.composite: full mask selects the first image,
zero mask selects the second exactly, intermediate values blend. -/
def blendC (c1 c2 m : Nat) : Nat := (c1 * m + c2 * (255 - m) + 127) / 255

/-- Modelled from the spec: Image.composite(image1, image2, mask) on RGB
buffers with an L-mode mask. -/
def compositeMask (im1 im2 : Img) (mask : List Nat) : Img :=
  { mode := Mode.RGB, width := im1.width, height := im1.height
    px := List.zipWith (fun pq m =>
        (⟨blendC pq.1.r pq.2.r m, blendC pq.1.g pq.2.g m,
          blendC pq.1.b pq.2.b m, 255⟩ : Rgba))
      (im1.px.zip im2.px) mask
    idx := [], palette := [], transparencyInfo := none }

/-- Distinct colors in order of first appearance. -/
def seenColors (ps : List Rgb) : List Rgb :=
  ps.foldl (fun acc c => if c ∈ acc then acc else acc ++ [c]) []

/-- Modelled from the spec: adaptive palette quantization to at most the
given number of colors (PIL convert to mode P with an ADAPTIVE palette).
The palette keeps the first distinct colors of the buffer, colors beyond
the cap map to the last palette slot, and dithering only moves pixels
between nearby palette entries, so it is abstracted away.  The claims
rely on the output being indexed, keeping the input geometry, and using
at most the requested number of palette indices. -/
def quantizeAdaptive (colors : Nat) (dither : Bool) (im : Img) : Img :=
  let rgbs := (convertRGB im).px.map (fun p => (⟨p.r, p.g, p.b⟩ : Rgb))
  let pal := (seenColors rgbs).take colors
  { mode := Mode.P, width := im.width, height := im.height, px := []
    idx := rgbs.map (fun c => min (List.indexOf c pal) (pal.length - 1))
    palette := pal, transparencyInfo := none }

/-- Modelled from the spec: resizing changes the geometry; the LANCZOS
resampling of pixel content is abstracted to nearest-neighbor sampling
since no claim depends on resampled pixel values. -/
def resizeImg (im : Img) (w h : Nat) : Img :=
  { im with
    width := w
    height := h
    px := if im.mode = Mode.P then [] else
      (List.range (w * h)).map (fun k =>
        im.px.getD ((k / w * im.height / h) * im.width + (k % w * im.width / w))
          ⟨0, 0, 0, 255⟩)
    idx := if im.mode = Mode.P then
        (List.range (w * h)).map (fun k =>
          im.idx.getD ((k / w * im.height / h) * im.width + (k % w * im.width / w)) 0)
      else [] }

/-! ## Frame loader (app.py, load_and_prepare_image) -/

/-- The color conversion step of load_and_prepare_image: sources of mode
RGBA or LA, or P with a transparency marker, are preserved as RGBA when
background is unset and flattened over the opaque background otherwise;
all other sources convert to plain RGB. -/
def convertStage (im : Img) (background : Option Rgb) : Img :=
  if im.mode = Mode.RGBA ∨ im.mode = Mode.LA
      ∨ (im.mode = Mode.P ∧ im.transparencyInfo.isSome = true) then
    match background with
    | none => convertRGBA im
    | some bg =>
      convertRGB (alpha_composite
        (newSolid Mode.RGBA im.width im.height ⟨bg.r, bg.g, bg.b, 255⟩)
        (convertRGBA im))
  else convertRGB im

/-- Round half to even on the rational num / den (the Python round). -/
def pyRound (num den : Nat) : Nat :=
  if den = 0 then 0
  else if 2 * (num % den) < den then num / den
  else if den < 2 * (num % den) then num / den + 1
  else if (num / den) % 2 = 0 then num / den else num / den + 1

/-- Modelled from the spec: the target geometry of ImageOps.contain for
a bounding box, comparing aspect ratios by exact cross multiplication. -/
def containSize (w h bw bh : Nat) : Nat × Nat :=
  if w * bh = bw * h then (bw, bh)
  else if bw * h < w * bh then (bw, pyRound (h * bw) w)
  else (pyRound (w * bh) h, bh)

/-- The resize step of load_and_prepare_image: fit mode contains the
image in (target_width, 10 to the 9th), stretch mode scales exactly to
target_width with proportional rounded height of at least one, and any
other mode or a zero target keeps the size. -/
def resizeStage (im : Img) (target_width : Nat) (fit_mode : String) : Img :=
  if 0 < target_width then
    if fit_mode = "fit" then
      let sz := containSize im.width im.height target_width (10 ^ 9)
      resizeImg im sz.1 sz.2
    else if fit_mode = "stretch" then
      if im.width ≠ target_width then
        resizeImg im target_width (max 1 (pyRound (im.height * target_width) im.width))
      else im
    else im
  else im

/-- The palette step of load_and_prepare_image: quantize to 256 colors
when requested. -/
def paletteStage (im : Img) (to_palette dither : Bool) : Img :=
  if to_palette then quantizeAdaptive 256 dither im else im

/-- load_and_prepare_image from app.py: convert, resize, then optionally
quantize. -/
def load_and_prepare_image (im : Img) (target_width : Nat) (fit_mode : String)
    (background : Option Rgb) (to_palette dither : Bool) : Img :=
  paletteStage (resizeStage (convertStage im background) target_width fit_mode)
    to_palette dither

/-! ## Encoder (app.py, build_gif) and the per-frame loading loop -/

structure GifOutput where
  processed : List Img
  duration : Nat
  loop : Nat
  disposal : Nat
  optimize : Bool
deriving DecidableEq

/-- Size normalization of build_gif: a frame whose size differs from the
first frame is resized to the first frame, otherwise kept. -/
def normOne (base im : Img) : Img :=
  if (im.width, im.height) ≠ (base.width, base.height) then
    resizeImg im base.width base.height
  else im

/-- The transparency branch of build_gif: when transparency is to be
saved and the frame is RGBA, composite its RGB content over a magenta
matte through the alpha channel, quantize to 255 colors, and mark index
255 as transparent in the metadata; any other frame passes through. -/
def transparencyPass (save_transparency : Bool) (im : Img) : Img :=
  if save_transparency = true ∧ im.mode = Mode.RGBA then
    let alpha := im.px.map Rgba.a
    let matte := newSolid Mode.RGB im.width im.height ⟨255, 0, 255, 255⟩
    let rgb := compositeMask (convertRGB im) matte alpha
    let p := quantizeAdaptive 255 true rgb
    { p with transparencyInfo := some 255 }
  else im

/-- build_gif from app.py: raises ValueError on an empty frame list,
otherwise normalizes sizes to the first frame, applies the transparency
branch per frame, and saves all processed frames with the playback
parameters. -/
def build_gif (frames : List Img) (duration_ms loop disposal : Nat)
    (optimize save_transparency : Bool) : Except String GifOutput :=
  match frames with
  | [] => Except.error "No frames to encode."
  | base :: rest =>
    let normalized := (base :: rest).map (normOne base)
    let processed := normalized.map (transparencyPass save_transparency)
    Except.ok
      { processed := processed, duration := duration_ms, loop := loop
        disposal := disposal, optimize := optimize }

/-- The per-frame loading loop of app.py: a decodable entry appends its
frame, an undecodable one appends its name to the skipped list, and the
loop continues either way. -/
def loadFrames (decode : String → Option Img) :
    List String → List Img × List String
  | [] => ([], [])
  | n :: ns =>
    let rest := loadFrames decode ns
    match decode n with
    | some f => (f :: rest.1, rest.2)
    | none => (rest.1, n :: rest.2)

/-! ## Preservation lemmas for the pipeline stages -/

theorem convertRGB_sizes (im : Img) :
    (convertRGB im).width = im.width ∧ (convertRGB im).height = im.height := by
  rcases im with ⟨m, w, h, px, ix, pal, ti⟩
  cases m <;> exact ⟨rfl, rfl⟩

theorem convertRGBA_sizes (im : Img) :
    (convertRGBA im).width = im.width ∧ (convertRGBA im).height = im.height := by
  rcases im with ⟨m, w, h, px, ix, pal, ti⟩
  cases m <;> exact ⟨rfl, rfl⟩

theorem convertRGB_mode (im : Img) : (convertRGB im).mode = Mode.RGB := by
  rcases im with ⟨m, w, h, px, ix, pal, ti⟩
  cases m <;> rfl

theorem convertRGBA_mode (im : Img) : (convertRGBA im).mode = Mode.RGBA := by
  rcases im with ⟨m, w, h, px, ix, pal, ti⟩
  cases m <;> rfl

theorem convertStage_sizes (im : Img) (bg : Option Rgb) :
    (convertStage im bg).width = im.width
    ∧ (convertStage im bg).height = im.height := by
  unfold convertStage
  split_ifs with hc
  · cases bg with
    | none => exact convertRGBA_sizes im
    | some c =>
      constructor
      · rw [(convertRGB_sizes _).1]
        rfl
      · rw [(convertRGB_sizes _).2]
        rfl
  · exact convertRGB_sizes im

theorem paletteStage_sizes (im : Img) (p d : Bool) :
    (paletteStage im p d).width = im.width
    ∧ (paletteStage im p d).height = im.height := by
  unfold paletteStage
  split_ifs <;> exact ⟨rfl, rfl⟩

theorem paletteStage_false (im : Img) (d : Bool) : paletteStage im false d = im := rfl

theorem resizeStage_mode (im : Img) (tw : Nat) (fm : String) :
    (resizeStage im tw fm).mode = im.mode := by
  unfold resizeStage
  split_ifs <;> rfl

theorem resizeStage_none (im : Img) (tw : Nat) : resizeStage im tw "none" = im := by
  unfold resizeStage
  split_ifs with h1 h2 h3 h4 <;>
    first
      | rfl
      | exact absurd h2 (by decide)
      | exact absurd h3 (by decide)

theorem resizeStage_zero (im : Img) (fm : String) : resizeStage im 0 fm = im := by
  unfold resizeStage
  rw [if_neg (by decide)]

/-! ## Rounding lemmas for claim C7 -/

/-- Distance on Nat, written so that omega can reason about it. -/
def natDist (a b : Nat) : Nat := (a - b) + (b - a)

theorem pyRound_nearest (num den : Nat) (hden : 0 < den) :
    2 * natDist (pyRound num den * den) num ≤ den := by
  have hne : den ≠ 0 := Nat.pos_iff_ne_zero.mp hden
  have h1 : den * (num / den) + num % den = num := Nat.div_add_mod num den
  have h2 : num % den < den := Nat.mod_lt num hden
  unfold pyRound natDist
  rw [if_neg hne]
  obtain ⟨q, hqq⟩ : ∃ q, num / den = q := ⟨_, rfl⟩
  obtain ⟨r, hrr⟩ : ∃ r, num % den = r := ⟨_, rfl⟩
  rw [hqq, hrr] at h1 ⊢
  rw [hrr] at h2
  have e1 : q * den = den * q := Nat.mul_comm _ _
  have e2 : (q + 1) * den = den * q + den := by ring
  obtain ⟨x, hx⟩ : ∃ x, den * q = x := ⟨_, rfl⟩
  rw [hx] at h1
  split_ifs with hb1 hb2 hb3
  · rw [e1, hx]
    omega
  · rw [e2, hx]
    omega
  · rw [e1, hx]
    omega
  · rw [e2, hx]
    omega

theorem pyRound_le (num den B : Nat) (hden : 0 < den) (h : num ≤ B * den) :
    pyRound num den ≤ B := by
  have hne : den ≠ 0 := Nat.pos_iff_ne_zero.mp hden
  have hq : num / den ≤ B := by
    have hd : num / den ≤ B * den / den := Nat.div_le_div_right h
    rwa [Nat.mul_div_cancel _ hden] at hd
  have hstrict : num % den ≠ 0 → num / den < B := by
    intro hr
    rcases Nat.lt_or_ge num (B * den) with hlt | hge
    · exact (Nat.div_lt_iff_lt_mul hden).mpr hlt
    · have heq : num = B * den := le_antisymm h hge
      rw [heq, Nat.mul_mod_left] at hr
      exact absurd rfl hr
  unfold pyRound
  rw [if_neg hne]
  split_ifs with hb1 hb2 hb3
  · exact hq
  · have hrne : num % den ≠ 0 := by
      intro h0
      rw [h0] at hb2
      omega
    exact hstrict hrne
  · exact hq
  · have hrne : num % den ≠ 0 := by
      intro h0
      rw [h0] at hb1
      omega
    exact hstrict hrne

theorem containSize_fst_le (w h bw bh : Nat) (hh : 0 < h) :
    (containSize w h bw bh).1 ≤ bw := by
  unfold containSize
  split_ifs with h1 h2
  · exact le_rfl
  · exact le_rfl
  · have hle : w * bh ≤ bw * h := by omega
    exact pyRound_le (w * bh) h bw hh hle

/-- The contain geometry preserves the aspect ratio up to the rounding
of one dimension: the cross products of the output and source geometries
agree within half of one rounding denominator. -/
theorem containSize_aspect (w h bw bh : Nat) (hw : 0 < w) (hh : 0 < h) :
    2 * natDist ((containSize w h bw bh).2 * w) (h * (containSize w h bw bh).1) ≤ w
    ∨ 2 * natDist ((containSize w h bw bh).1 * h) (w * (containSize w h bw bh).2)
        ≤ h := by
  unfold containSize
  split_ifs with h1 h2
  · left
    show 2 * natDist (bh * w) (h * bw) ≤ w
    have he : bh * w = h * bw := by
      rw [Nat.mul_comm bh w, h1, Nat.mul_comm bw h]
    rw [he]
    simp [natDist]
  · left
    show 2 * natDist (pyRound (h * bw) w * w) (h * bw) ≤ w
    exact pyRound_nearest (h * bw) w hw
  · right
    show 2 * natDist (pyRound (w * bh) h * h) (w * bh) ≤ h
    exact pyRound_nearest (w * bh) h hh

theorem resizeStage_fit (im : Img) (tw : Nat) (hw : 0 < im.width)
    (hh : 0 < im.height) (htw : 0 < tw) :
    (resizeStage im tw "fit").width ≤ tw
    ∧ (2 * natDist ((resizeStage im tw "fit").height * im.width)
          (im.height * (resizeStage im tw "fit").width) ≤ im.width
       ∨ 2 * natDist ((resizeStage im tw "fit").width * im.height)
          (im.width * (resizeStage im tw "fit").height) ≤ im.height) := by
  unfold resizeStage
  rw [if_pos htw, if_pos rfl]
  constructor
  · exact containSize_fst_le im.width im.height tw (10 ^ 9) hh
  · exact containSize_aspect im.width im.height tw (10 ^ 9) hw hh

theorem resizeStage_stretch (im : Img) (tw : Nat) (hw : 0 < im.width)
    (hh : 0 < im.height) (htw : 0 < tw) :
    (resizeStage im tw "stretch").width = tw
    ∧ ∃ r, 2 * natDist (r * im.width) (im.height * tw) ≤ im.width
        ∧ (resizeStage im tw "stretch").height = max 1 r := by
  unfold resizeStage
  rw [if_pos htw, if_neg (by decide : ¬("stretch" = "fit")), if_pos rfl]
  by_cases hne : im.width ≠ tw
  · rw [if_pos hne]
    exact ⟨rfl, pyRound (im.height * tw) im.width,
      pyRound_nearest (im.height * tw) im.width hw, rfl⟩
  · rw [if_neg hne]
    push_neg at hne
    refine ⟨hne, im.height, ?_, ?_⟩
    · rw [hne]
      simp [natDist]
    · exact (Nat.max_eq_right hh).symm

/-! ## Claim C7 -/

/-- C7: with a positive target width, fit mode gives a width of at most
the target while preserving the aspect ratio up to the rounding of one
dimension (the cross products of the output geometry and the source
geometry agree within half of one rounding denominator); stretch mode
gives exactly the target width with the height a nearest whole number to
the proportional height and at least one; mode none and a zero target
keep the size unchanged. -/
theorem claim_C7 (im : Img) (tw : Nat) (bg : Option Rgb) (pal dith : Bool)
    (hw : 0 < im.width) (hh : 0 < im.height) (htw : 0 < tw) :
    ((load_and_prepare_image im tw "fit" bg pal dith).width ≤ tw
     ∧ (2 * natDist ((load_and_prepare_image im tw "fit" bg pal dith).height
             * im.width)
           (im.height * (load_and_prepare_image im tw "fit" bg pal dith).width)
         ≤ im.width
        ∨ 2 * natDist ((load_and_prepare_image im tw "fit" bg pal dith).width
             * im.height)
           (im.width * (load_and_prepare_image im tw "fit" bg pal dith).height)
         ≤ im.height))
    ∧ ((load_and_prepare_image im tw "stretch" bg pal dith).width = tw
       ∧ ∃ r, 2 * natDist (r * im.width) (im.height * tw) ≤ im.width
           ∧ (load_and_prepare_image im tw "stretch" bg pal dith).height = max 1 r)
    ∧ ((load_and_prepare_image im tw "none" bg pal dith).width = im.width
       ∧ (load_and_prepare_image im tw "none" bg pal dith).height = im.height)
    ∧ (∀ fm, (load_and_prepare_image im 0 fm bg pal dith).width = im.width
       ∧ (load_and_prepare_image im 0 fm bg pal dith).height = im.height) := by
  obtain ⟨hcw, hch⟩ := convertStage_sizes im bg
  have hw2 : 0 < (convertStage im bg).width := hcw ▸ hw
  have hh2 : 0 < (convertStage im bg).height := hch ▸ hh
  refine ⟨?_, ⟨?_, ?_⟩, ⟨?_, ?_⟩, ?_⟩
  · have hfw : (load_and_prepare_image im tw "fit" bg pal dith).width
        = (resizeStage (convertStage im bg) tw "fit").width :=
      (paletteStage_sizes _ pal dith).1
    have hfh : (load_and_prepare_image im tw "fit" bg pal dith).height
        = (resizeStage (convertStage im bg) tw "fit").height :=
      (paletteStage_sizes _ pal dith).2
    obtain ⟨hle, hasp⟩ := resizeStage_fit (convertStage im bg) tw hw2 hh2 htw
    constructor
    · rw [hfw]
      exact hle
    · rw [hfw, hfh, ← hcw, ← hch]
      exact hasp
  · show (paletteStage (resizeStage (convertStage im bg) tw "stretch") pal dith).width
        = tw
    rw [(paletteStage_sizes _ pal dith).1]
    exact (resizeStage_stretch _ tw hw2 hh2 htw).1
  · obtain ⟨r, hr1, hr2⟩ := (resizeStage_stretch (convertStage im bg) tw hw2 hh2 htw).2
    refine ⟨r, ?_, ?_⟩
    · rw [← hcw, ← hch]
      exact hr1
    · show (paletteStage (resizeStage (convertStage im bg) tw "stretch") pal dith).height
          = max 1 r
      rw [(paletteStage_sizes _ pal dith).2]
      exact hr2
  · show (paletteStage (resizeStage (convertStage im bg) tw "none") pal dith).width
        = im.width
    rw [(paletteStage_sizes _ pal dith).1, resizeStage_none]
    exact hcw
  · show (paletteStage (resizeStage (convertStage im bg) tw "none") pal dith).height
        = im.height
    rw [(paletteStage_sizes _ pal dith).2, resizeStage_none]
    exact hch
  · intro fm
    constructor
    · show (paletteStage (resizeStage (convertStage im bg) 0 fm) pal dith).width
          = im.width
      rw [(paletteStage_sizes _ pal dith).1, resizeStage_zero]
      exact hcw
    · show (paletteStage (resizeStage (convertStage im bg) 0 fm) pal dith).height
          = im.height
      rw [(paletteStage_sizes _ pal dith).2, resizeStage_zero]
      exact hch

/-- A concrete 4 by 2 RGB frame. -/
def testImgWide : Img :=
  { mode := Mode.RGB, width := 4, height := 2
    px := List.replicate 8 ⟨0, 0, 0, 255⟩
    idx := [], palette := [], transparencyInfo := none }

/-- Witness for C7 at the concrete 4 by 2 frame with target width 3. -/
theorem claim_C7_witness :
    ((load_and_prepare_image testImgWide 3 "fit" none false false).width ≤ 3
     ∧ (2 * natDist ((load_and_prepare_image testImgWide 3 "fit" none false false).height
             * testImgWide.width)
           (testImgWide.height
             * (load_and_prepare_image testImgWide 3 "fit" none false false).width)
         ≤ testImgWide.width
        ∨ 2 * natDist ((load_and_prepare_image testImgWide 3 "fit" none false false).width
             * testImgWide.height)
           (testImgWide.width
             * (load_and_prepare_image testImgWide 3 "fit" none false false).height)
         ≤ testImgWide.height))
    ∧ ((load_and_prepare_image testImgWide 3 "stretch" none false false).width = 3
       ∧ ∃ r, 2 * natDist (r * testImgWide.width) (testImgWide.height * 3)
             ≤ testImgWide.width
           ∧ (load_and_prepare_image testImgWide 3 "stretch" none false false).height
             = max 1 r)
    ∧ ((load_and_prepare_image testImgWide 3 "none" none false false).width
          = testImgWide.width
       ∧ (load_and_prepare_image testImgWide 3 "none" none false false).height
          = testImgWide.height)
    ∧ (∀ fm, (load_and_prepare_image testImgWide 0 fm none false false).width
          = testImgWide.width
       ∧ (load_and_prepare_image testImgWide 0 fm none false false).height
          = testImgWide.height) :=
  claim_C7 testImgWide 3 none false false (by decide) (by decide) (by decide)

/-! ## Claim C8: color conversion of the loader -/

theorem convertStage_mode_none {im : Img}
    (hc : im.mode = Mode.RGBA ∨ im.mode = Mode.LA
      ∨ (im.mode = Mode.P ∧ im.transparencyInfo.isSome = true)) :
    (convertStage im none).mode = Mode.RGBA := by
  unfold convertStage
  rw [if_pos hc]
  exact convertRGBA_mode im

theorem convertStage_mode_some {im : Img} (c : Rgb)
    (hc : im.mode = Mode.RGBA ∨ im.mode = Mode.LA
      ∨ (im.mode = Mode.P ∧ im.transparencyInfo.isSome = true)) :
    (convertStage im (some c)).mode = Mode.RGB := by
  unfold convertStage
  rw [if_pos hc]
  exact convertRGB_mode _

theorem convertStage_mode_else {im : Img}
    (hc : ¬ (im.mode = Mode.RGBA ∨ im.mode = Mode.LA
      ∨ (im.mode = Mode.P ∧ im.transparencyInfo.isSome = true)))
    (bg : Option Rgb) : (convertStage im bg).mode = Mode.RGB := by
  unfold convertStage
  rw [if_neg hc]
  exact convertRGB_mode im

/-- A source that has an alpha channel (mode RGBA or LA) or carries a
transparency marker in its metadata, as claim C8 words it. -/
def hasAlphaOrMarker (im : Img) : Prop :=
  im.mode = Mode.RGBA ∨ im.mode = Mode.LA ∨ im.transparencyInfo.isSome = true

/-- A one-pixel RGB image carrying a transparency marker, as PIL
delivers for an RGB PNG file with a tRNS chunk. -/
def rgbMarkerImg : Img :=
  { mode := Mode.RGB, width := 1, height := 1
    px := [⟨1, 2, 3, 255⟩]
    idx := [], palette := [], transparencyInfo := some 0 }

/-- C8 as stated is false at a concrete input: an RGB source carrying a
transparency marker has a transparency marker and background is unset,
yet the loaded frame is not RGBA; the code honors the marker only for
mode P sources. -/
theorem claim_C8_cex :
    hasAlphaOrMarker rgbMarkerImg
    ∧ (load_and_prepare_image rgbMarkerImg 0 "none" none false false).mode
        ≠ Mode.RGBA := by
  constructor
  · exact Or.inr (Or.inr rfl)
  · decide

/-- C8 amended: a source of mode RGBA or LA, or of mode P with a
transparency marker, is preserved as RGBA when background is unset and
flattened to RGB when background is set; every other source, including a
non-P source carrying a transparency marker, converts to plain RGB. -/
theorem claim_C8_amended (im : Img) (tw : Nat) (fm : String) (dith : Bool) :
    ((im.mode = Mode.RGBA ∨ im.mode = Mode.LA
        ∨ (im.mode = Mode.P ∧ im.transparencyInfo.isSome = true)) →
      (load_and_prepare_image im tw fm none false dith).mode = Mode.RGBA
      ∧ ∀ c : Rgb,
          (load_and_prepare_image im tw fm (some c) false dith).mode = Mode.RGB)
    ∧ ((¬ (im.mode = Mode.RGBA ∨ im.mode = Mode.LA
        ∨ (im.mode = Mode.P ∧ im.transparencyInfo.isSome = true))) →
      ∀ bg : Option Rgb,
        (load_and_prepare_image im tw fm bg false dith).mode = Mode.RGB) := by
  constructor
  · intro hc
    constructor
    · show (paletteStage (resizeStage (convertStage im none) tw fm) false dith).mode
          = Mode.RGBA
      rw [paletteStage_false, resizeStage_mode, convertStage_mode_none hc]
    · intro c
      show (paletteStage (resizeStage (convertStage im (some c)) tw fm) false
          dith).mode = Mode.RGB
      rw [paletteStage_false, resizeStage_mode, convertStage_mode_some c hc]
  · intro hc bg
    show (paletteStage (resizeStage (convertStage im bg) tw fm) false dith).mode
        = Mode.RGB
    rw [paletteStage_false, resizeStage_mode, convertStage_mode_else hc bg]

/-- A one-pixel RGBA test frame. -/
def testImgRGBA : Img :=
  { mode := Mode.RGBA, width := 1, height := 1
    px := [⟨9, 8, 7, 128⟩]
    idx := [], palette := [], transparencyInfo := none }

/-- Witness for the amended C8 at a concrete RGBA input. -/
theorem claim_C8_witness :
    (load_and_prepare_image testImgRGBA 0 "none" none false false).mode
      = Mode.RGBA :=
  ((claim_C8_amended testImgRGBA 0 "none" false).1 (Or.inl rfl)).1

/-! ## Claim C6: size normalization in build_gif -/

theorem normOne_sizes (base im : Img) :
    (normOne base im).width = base.width ∧ (normOne base im).height = base.height := by
  unfold normOne
  split_ifs with h
  · exact ⟨rfl, rfl⟩
  · have hp := Prod.ext_iff.mp (not_not.mp h)
    exact hp

theorem normOne_mode (base im : Img) : (normOne base im).mode = im.mode := by
  unfold normOne
  split_ifs <;> rfl

theorem normOne_info (base im : Img) :
    (normOne base im).transparencyInfo = im.transparencyInfo := by
  unfold normOne
  split_ifs <;> rfl

theorem transparencyPass_sizes (t : Bool) (im : Img) :
    (transparencyPass t im).width = im.width
    ∧ (transparencyPass t im).height = im.height := by
  unfold transparencyPass
  split_ifs with hc
  · constructor
    · show (convertRGB im).width = im.width
      exact (convertRGB_sizes im).1
    · show (convertRGB im).height = im.height
      exact (convertRGB_sizes im).2
  · exact ⟨rfl, rfl⟩

theorem transparencyPass_skip {t : Bool} {im : Img} (h : im.mode ≠ Mode.RGBA) :
    transparencyPass t im = im := by
  unfold transparencyPass
  rw [if_neg]
  rintro ⟨-, hm⟩
  exact h hm

/-- C6: for a nonempty frame list, build_gif succeeds, no frame is
dropped, and every frame it passes to the container save call has the
geometry of the first frame. -/
theorem claim_C6 (base : Img) (rest : List Img) (d l dsp : Nat) (o t : Bool) :
    ∃ g, build_gif (base :: rest) d l dsp o t = Except.ok g
      ∧ g.processed.length = (base :: rest).length
      ∧ ∀ f ∈ g.processed, f.width = base.width ∧ f.height = base.height := by
  refine ⟨_, rfl, ?_, ?_⟩
  · simp [build_gif]
  · intro f hf
    simp only [List.mem_map] at hf
    obtain ⟨im0, him0, rfl⟩ := hf
    obtain ⟨im1, him1, rfl⟩ := him0
    constructor
    · rw [(transparencyPass_sizes t _).1, (normOne_sizes base im1).1]
    · rw [(transparencyPass_sizes t _).2, (normOne_sizes base im1).2]

/-- A one-pixel RGB test frame. -/
def testImgRGB : Img :=
  { mode := Mode.RGB, width := 1, height := 1
    px := [⟨5, 6, 7, 255⟩]
    idx := [], palette := [], transparencyInfo := none }

/-- A two-by-two RGB test frame, to exercise the resize path. -/
def testImgBig : Img :=
  { mode := Mode.RGB, width := 2, height := 2
    px := List.replicate 4 ⟨1, 1, 1, 255⟩
    idx := [], palette := [], transparencyInfo := none }

/-- Witness for C6: a mixed-size pair is normalized to the first frame
with both frames kept. -/
theorem claim_C6_witness :
    ∃ g, build_gif (testImgRGB :: [testImgBig]) 40 0 2 true false = Except.ok g
      ∧ g.processed.length = (testImgRGB :: [testImgBig]).length
      ∧ ∀ f ∈ g.processed,
          f.width = testImgRGB.width ∧ f.height = testImgRGB.height :=
  claim_C6 testImgRGB [testImgBig] 40 0 2 true false

/-! ## Claim C4: skip-and-continue loading, empty-list encoder failure -/

theorem loadFrames_append (decode : String → Option Img) (xs ys : List String) :
    loadFrames decode (xs ++ ys)
      = ((loadFrames decode xs).1 ++ (loadFrames decode ys).1,
         (loadFrames decode xs).2 ++ (loadFrames decode ys).2) := by
  induction xs with
  | nil => simp [loadFrames]
  | cons n ns ih =>
    cases hd : decode n <;> simp [loadFrames, hd, ih, List.cons_append]

/-- C4: an entry whose bytes fail to decode is skipped with its name
recorded while the remaining entries are still processed, and the
encoder fails exactly on an empty frame list: it reports the no-frames
error there and succeeds on every nonempty list. -/
theorem claim_C4 :
    (∀ (decode : String → Option Img) (pre : List String) (n : String)
        (post : List String), decode n = none →
      (loadFrames decode (pre ++ n :: post)).1
          = (loadFrames decode pre).1 ++ (loadFrames decode post).1
        ∧ n ∈ (loadFrames decode (pre ++ n :: post)).2)
    ∧ (∀ (d l dsp : Nat) (o t : Bool),
        build_gif [] d l dsp o t = Except.error "No frames to encode.")
    ∧ (∀ (frames : List Img) (d l dsp : Nat) (o t : Bool), frames ≠ [] →
        ∃ g, build_gif frames d l dsp o t = Except.ok g) := by
  refine ⟨?_, fun d l dsp o t => rfl, ?_⟩
  · intro decode pre n post hn
    have happ := loadFrames_append decode pre (n :: post)
    have hcons : loadFrames decode (n :: post)
        = ((loadFrames decode post).1, n :: (loadFrames decode post).2) := by
      simp [loadFrames, hn]
    refine ⟨?_, ?_⟩ <;> simp [happ, hcons]
  · intro frames d l dsp o t hne
    cases frames with
    | nil => exact absurd rfl hne
    | cons b rest => exact ⟨_, rfl⟩

/-- A decoder failing exactly on the entry bad.png. -/
def testDecode : String → Option Img :=
  fun n => if n = "bad.png" then none else some testImgRGB

/-- Witness for C4: the failing middle entry is skipped and recorded,
the neighbors are still decoded, and a nonempty list encodes. -/
theorem claim_C4_witness :
    ((loadFrames testDecode (["a.png"] ++ "bad.png" :: ["c.png"])).1
        = (loadFrames testDecode ["a.png"]).1 ++ (loadFrames testDecode ["c.png"]).1
      ∧ "bad.png" ∈ (loadFrames testDecode (["a.png"] ++ "bad.png" :: ["c.png"])).2)
    ∧ ∃ g, build_gif [testImgRGB] 100 0 2 true false = Except.ok g :=
  ⟨claim_C4.1 testDecode ["a.png"] "bad.png" ["c.png"] (by decide),
   claim_C4.2.2 [testImgRGB] 100 0 2 true false (by decide)⟩

/-! ## Claim C10: palette conversion disables the transparency branch -/

theorem load_palette_props (im : Img) (tw : Nat) (fm : String) (bg : Option Rgb)
    (dith : Bool) :
    (load_and_prepare_image im tw fm bg true dith).mode = Mode.P
    ∧ (load_and_prepare_image im tw fm bg true dith).transparencyInfo = none :=
  ⟨rfl, rfl⟩

/-- C10: with palette quantization on, every loaded frame is indexed
mode P; with transparency preservation also requested, no frame at
encode time is RGBA, the transparency-preserving branch is never taken,
and no transparency index is set, so the output carries no preserved
transparency. -/
theorem claim_C10 (ims : List Img) (tw : Nat) (fm : String) (bg : Option Rgb)
    (dith : Bool) (d l dsp : Nat) (o : Bool) (hne : ims ≠ []) :
    (∀ f ∈ ims.map (fun im => load_and_prepare_image im tw fm bg true dith),
        f.mode = Mode.P)
    ∧ ∃ g, build_gif (ims.map (fun im => load_and_prepare_image im tw fm bg true dith))
          d l dsp o true = Except.ok g
        ∧ ∀ f ∈ g.processed, f.mode = Mode.P ∧ f.transparencyInfo = none := by
  have hmode : ∀ f ∈ ims.map (fun im => load_and_prepare_image im tw fm bg true dith),
      f.mode = Mode.P ∧ f.transparencyInfo = none := by
    intro f hf
    rw [List.mem_map] at hf
    obtain ⟨im0, -, rfl⟩ := hf
    exact load_palette_props im0 tw fm bg dith
  refine ⟨fun f hf => (hmode f hf).1, ?_⟩
  cases hmap : ims.map (fun im => load_and_prepare_image im tw fm bg true dith) with
  | nil =>
    exact absurd (List.map_eq_nil_iff.mp hmap) hne
  | cons b rest =>
    refine ⟨_, rfl, ?_⟩
    intro f hf
    simp only [List.mem_map] at hf
    obtain ⟨im0, him0, rfl⟩ := hf
    obtain ⟨im1, him1, rfl⟩ := him0
    have him1b : im1 ∈ ims.map (fun im => load_and_prepare_image im tw fm bg true dith) := by
      rw [hmap]
      exact him1
    obtain ⟨hm, hi⟩ := hmode im1 him1b
    have hmn : (normOne b im1).mode = Mode.P := by rw [normOne_mode, hm]
    have hskip : transparencyPass true (normOne b im1) = normOne b im1 := by
      apply transparencyPass_skip
      rw [hmn]
      intro hcontra
      cases hcontra
    rw [hskip, hmn, normOne_info, hi]
    exact ⟨rfl, rfl⟩

/-- Witness for C10 at a one-frame list. -/
theorem claim_C10_witness :
    (∀ f ∈ [testImgRGBA].map
        (fun im => load_and_prepare_image im 0 "none" none true false),
      f.mode = Mode.P)
    ∧ ∃ g, build_gif ([testImgRGBA].map
            (fun im => load_and_prepare_image im 0 "none" none true false))
          100 0 2 true true = Except.ok g
        ∧ ∀ f ∈ g.processed, f.mode = Mode.P ∧ f.transparencyInfo = none :=
  claim_C10 [testImgRGBA] 0 "none" none false 100 0 2 true (by decide)

/-! ## Claim C5: the transparency branch of build_gif -/

/-- A two-pixel RGBA frame, one opaque color and one fully transparent
pixel. -/
def rgbaFrame : Img :=
  { mode := Mode.RGBA, width := 2, height := 1
    px := [⟨10, 20, 30, 255⟩, ⟨0, 0, 0, 0⟩]
    idx := [], palette := [], transparencyInfo := none }

/-- C5 evaluated on the failing input: compositing over the magenta
matte makes the fully transparent pixel exactly the matte color and the
metadata designates index 255, but quantization to 255 colors assigns
only indices below 255 and the code never remaps the matte color to the
last index, so no pixel, in particular not the matte-substituted one,
carries the designated transparency index. -/
theorem claim_C5_eval :
    ∃ g, build_gif [rgbaFrame] 100 0 2 true true = Except.ok g
      ∧ ∃ p, g.processed = [p]
        ∧ p.transparencyInfo = some 255
        ∧ p.mode = Mode.P
        ∧ p.palette.length ≤ 255
        ∧ p.idx = [0, 1]
        ∧ p.palette.getD 1 ⟨0, 0, 0⟩ = ⟨255, 0, 255⟩
        ∧ (compositeMask (convertRGB rgbaFrame)
              (newSolid Mode.RGB 2 1 ⟨255, 0, 255, 255⟩)
              (rgbaFrame.px.map Rgba.a)).px.getD 1 ⟨0, 0, 0, 0⟩
            = ⟨255, 0, 255, 255⟩
        ∧ ∀ i ∈ p.idx, i < 255 := by
  refine ⟨_, rfl, _, rfl, ?_⟩
  refine ⟨by decide, by decide, by decide, by decide, by decide, by decide, ?_⟩
  decide

end GifMaker
